import Mathlib

/-!
Shallow embedding of the verification-state engine of the repository:
the Ledger initializer (`scripts/create_initial_status.py`), the Status
Updater (`scripts/update_verification_status.py`), the Report Generator
(`scripts/generate_compliance_report.py`) and the Evidence Scanner
(`tools/master_compliance_analyzer.py`).

The persisted TOML file is modelled as a `StatusData` record: the
`metadata` table, the dictionary of per-requirement entries (an insertion
ordered association list with Python-dict semantics: assignment overwrites
the value in place, lookup finds the key), and the `statistics` table.
Timestamps (`datetime.now()`) are passed in as an explicit `now : String`
argument.  Python floats are modelled as rationals; `round(x, d)` is
modelled as rounding `x·10^d` to the nearest integer.
-/

namespace VerifTrack

/-- One per-requirement record of the status file: the value stored under a
`status.…` key.  `level` is an `Int` because TOML stores a machine integer
and `recalculate_statistics` guards `0 <= level <= 4` explicitly. -/
structure VerificationEntry where
  level : Int
  implementation : String
  test_file : String
  verified : Bool
  last_checked : String
  notes : String
deriving DecidableEq

/-- The `metadata` table of the status file (`create_initial_status`). -/
structure StatusMetadata where
  last_updated : String
  matrix_version : String
  total_requirements : Nat
  note : String
  warning : String
deriving DecidableEq

/-- The `statistics` table of the status file. -/
structure Statistics where
  level_0_count : Nat
  level_1_count : Nat
  level_2_count : Nat
  level_3_count : Nat
  level_4_count : Nat
  average_level : ℚ
  compliance_percentage : ℚ
  last_calculated : String
deriving DecidableEq

/-- Python-dict insertion for string-keyed association lists: assignment
`d[k] = v` overwrites the first (unique) occurrence of `k` in place and
otherwise appends at the end, preserving insertion order. -/
def dictInsert {α : Type} (k : String) (v : α) : List (String × α) → List (String × α)
  | [] => [(k, v)]
  | (k', v') :: d => if k' = k then (k, v) :: d else (k', v') :: dictInsert k v d

/-- Python-dict lookup `d[k]` / membership `k in d`. -/
def dictGet {α : Type} (k : String) : List (String × α) → Option α
  | [] => none
  | (k', v) :: d => if k' = k then some v else dictGet k d

/-- The keys of a dictionary, in insertion order. -/
def dictKeys {α : Type} (d : List (String × α)) : List String :=
  d.map Prod.fst

/-- The whole persisted status file.  Every entry key produced by the
scripts starts with `"status."`, so splitting the entry dictionary from the
`metadata` and `statistics` tables is faithful to the
`key.startswith('status.')` filters of the source. -/
structure StatusData where
  metadata : StatusMetadata
  entries : List (String × VerificationEntry)
  statistics : Statistics
deriving DecidableEq

/-! ### Keys

`create_initial_status.py` line 50 builds the storage key
`f'status."{req_id}"'`, while `update_verification_status.py` line 41 (and
`show_requirement_status`) builds the lookup key
`f'status.\\\\\\\\\\\\\\"{req_id}\\\\\\\\\\\\\\"'`, i.e. seven literal
backslashes before each quote. -/

/-- Storage key used by the initializer: `status."<id>"`. -/
def plainKey (req_id : String) : String :=
  "status.\"" ++ req_id ++ "\""

/-- Lookup key used by the updater: `status.` followed by the id wrapped in
`\\\\\\\"` (seven backslashes and a quote) on each side. -/
def escapedKey (req_id : String) : String :=
  "status.\\\\\\\\\\\\\\\"" ++ req_id ++ "\\\\\\\\\\\\\\\""

/-! ### The Requirement Matrix (read side)

For the initializer the Matrix only contributes its version string and the
requirement ids grouped by section (`extract_all_requirement_ids`). -/

/-- The immutable Matrix as the initializer consumes it: the metadata
version and, per `section_…` table, the list of requirement ids. -/
structure Matrix where
  version : String
  sections : List (List String)

/-- Lexicographic `≤` on code-point sequences, the order Python uses to
compare strings: the empty sequence is below everything, and otherwise the
first differing position decides. -/
def lexLeNat : List Nat → List Nat → Bool
  | [], _ => true
  | _ :: _, [] => false
  | a :: as, b :: bs => if a < b then true else if b < a then false else lexLeNat as bs

/-- Python's string `<=`: lexicographic comparison of Unicode code
points. -/
def strLe (a b : String) : Bool :=
  lexLeNat (a.data.map Char.toNat) (b.data.map Char.toNat)

/-- Stable insertion of a string into an ascending list (helper for the
Python `sorted` builtin). -/
def insertAsc (x : String) : List String → List String
  | [] => [x]
  | y :: ys => if strLe x y then x :: y :: ys else y :: insertAsc x ys

/-- Python `sorted` on a list of strings (ascending lexicographic). -/
def sortedStr : List String → List String
  | [] => []
  | x :: xs => insertAsc x (sortedStr xs)

/-- `extract_all_requirement_ids`: collect every section's requirement ids
in order, then return them sorted. -/
def extract_all_requirement_ids (m : Matrix) : List String :=
  sortedStr (List.flatten m.sections)

/-- The entry the initializer stores for every requirement
(`create_initial_status.py` lines 51-58). -/
def initialEntry : VerificationEntry :=
  { level := 0
  , implementation := ""
  , test_file := ""
  , verified := false
  , last_checked := "never"
  , notes := "Pendiente de verificación" }

/-- `create_initial_status(matrix, requirement_ids)`: metadata from the
matrix, one level-0 entry per id under the plain key, and the hard-coded
initial statistics block. -/
def create_initial_status (m : Matrix) (requirement_ids : List String) (now : String) :
    StatusData :=
  { metadata :=
      { last_updated := now
      , matrix_version := m.version
      , total_requirements := requirement_ids.length
      , note := "Este es el ÚNICO archivo de estado. NO crear copias o duplicados."
      , warning := "Solo este archivo se modifica. La matriz ISO_COMPLIANCE_MATRIX.toml es INMUTABLE." }
  , entries :=
      requirement_ids.foldl (fun d req_id => dictInsert (plainKey req_id) initialEntry d) []
  , statistics :=
      { level_0_count := requirement_ids.length
      , level_1_count := 0
      , level_2_count := 0
      , level_3_count := 0
      , level_4_count := 0
      , average_level := 0
      , compliance_percentage := 0
      , last_calculated := now } }

/-! ### Statistics recomputation (`recalculate_statistics`) -/

/-- Python `round(x, d)` on our rational model of floats: round `x·10^d` to
the nearest integer and scale back.  (Ties, which Python's float `round`
breaks to even, are rounded half-up here; every claim about rounded values
carries a tolerance that absorbs the difference.) -/
def roundQ (d : ℕ) (x : ℚ) : ℚ :=
  ((round (x * 10 ^ d) : ℤ) : ℚ) / 10 ^ d

/-- Accumulator of the `recalculate_statistics` loop: the five bucket
counters, the running level sum and the number of counted entries. -/
structure StatAcc where
  c0 : Nat
  c1 : Nat
  c2 : Nat
  c3 : Nat
  c4 : Nat
  total_level : Int
  total : Nat
deriving DecidableEq

/-- One iteration of the `recalculate_statistics` loop: entries whose level
lies in `[0,4]` are bucketed and counted, any other entry is skipped. -/
def statStep (acc : StatAcc) (p : String × VerificationEntry) : StatAcc :=
  if 0 ≤ p.2.level ∧ p.2.level ≤ 4 then
    { c0 := if p.2.level = 0 then acc.c0 + 1 else acc.c0
    , c1 := if p.2.level = 1 then acc.c1 + 1 else acc.c1
    , c2 := if p.2.level = 2 then acc.c2 + 1 else acc.c2
    , c3 := if p.2.level = 3 then acc.c3 + 1 else acc.c3
    , c4 := if p.2.level = 4 then acc.c4 + 1 else acc.c4
    , total_level := acc.total_level + p.2.level
    , total := acc.total + 1 }
  else acc

/-- The full counting loop of `recalculate_statistics` over every
`status.…` entry. -/
def statAccOf (entries : List (String × VerificationEntry)) : StatAcc :=
  entries.foldl statStep ⟨0, 0, 0, 0, 0, 0, 0⟩

/-- The `average_level` local of `recalculate_statistics`:
`total_level / total_requirements if total_requirements > 0 else 0.0`. -/
def statAvg (entries : List (String × VerificationEntry)) : ℚ :=
  if 0 < (statAccOf entries).total then
    ((statAccOf entries).total_level : ℚ) / ((statAccOf entries).total : ℚ)
  else 0

/-- `recalculate_statistics`: count the buckets, compute the average level
(`0.0` when there are no counted entries), store the average rounded to 3
decimals and the compliance percentage — computed from the unrounded
average — rounded to 2 decimals. -/
def recalculate_statistics (entries : List (String × VerificationEntry)) (now : String) :
    Statistics :=
  { level_0_count := (statAccOf entries).c0
  , level_1_count := (statAccOf entries).c1
  , level_2_count := (statAccOf entries).c2
  , level_3_count := (statAccOf entries).c3
  , level_4_count := (statAccOf entries).c4
  , average_level := roundQ 3 (statAvg entries)
  , compliance_percentage := roundQ 2 (statAvg entries / 4 * 100)
  , last_calculated := now }

/-! ### The Status Updater (`update_requirement_status`) -/

/-- `update_requirement_status(req_id, level, implementation, test_file,
notes)`: validate the level, look the requirement up under the escaped
composite key, update the entry (empty optional arguments — falsy strings —
leave the stored field alone), stamp the metadata, recompute the statistics
and persist.  Returns the Python function's boolean result together with
the status file as written (unchanged when the result is `false`). -/
def update_requirement_status (req_id : String) (level : Int)
    (implementation test_file notes : String) (now : String) (s : StatusData) :
    Bool × StatusData :=
  if ¬ (level = 0 ∨ level = 1 ∨ level = 2 ∨ level = 3 ∨ level = 4) then
    (false, s)
  else
    match dictGet (escapedKey req_id) s.entries with
    | none => (false, s)
    | some e =>
      let e' : VerificationEntry :=
        { level := level
        , verified := decide (3 ≤ level)
        , last_checked := now
        , implementation := if implementation ≠ "" then implementation else e.implementation
        , test_file := if test_file ≠ "" then test_file else e.test_file
        , notes := if notes ≠ "" then notes else e.notes }
      let entries' := dictInsert (escapedKey req_id) e' s.entries
      (true,
        { metadata := { s.metadata with last_updated := now }
        , entries := entries'
        , statistics := recalculate_statistics entries' now })

/-- Erase an entry's `last_checked` timestamp. -/
def stripEntryTime (e : VerificationEntry) : VerificationEntry :=
  { e with last_checked := "" }

/-- Erase the three timestamp fields (`last_checked` of every entry, the
metadata `last_updated`, and the statistics `last_calculated`), so that two
status files can be compared "modulo timestamps". -/
def stripTimestamps (s : StatusData) : StatusData :=
  { metadata := { s.metadata with last_updated := "" }
  , entries := s.entries.map (fun p => (p.1, stripEntryTime p.2))
  , statistics := { s.statistics with last_calculated := "" } }

/-! ### Report Generator (`generate_compliance_report.py`, recent activity) -/

/-- One row of the Recent Activity table: requirement id recovered from the
key by deleting `status."` and `"`, plus level, last-checked string and
notes. -/
structure RecentRow where
  req_id : String
  level : Int
  last_checked : String
  notes : String
deriving DecidableEq

/-- The rows `generate_markdown_report` collects before sorting: one per
`status.…` entry (every entry of the model carries a `last_checked`
field). -/
def recentRows (s : StatusData) : List RecentRow :=
  s.entries.map (fun p =>
    { req_id := (p.1.replace "status.\"" "").replace "\"" ""
    , level := p.2.level
    , last_checked := p.2.last_checked
    , notes := p.2.notes })

/-- Stable insertion for the descending-by-`last_checked` sort: an element
is placed before the first row whose key is strictly smaller, so rows with
equal keys keep their original relative order, exactly like Python's stable
`list.sort(key=…, reverse=True)`. -/
def insertRowDesc (x : RecentRow) : List RecentRow → List RecentRow
  | [] => [x]
  | y :: ys =>
    if strLe y.last_checked x.last_checked then x :: y :: ys else y :: insertRowDesc x ys

/-- `recent_updates.sort(key=lambda x: x[2], reverse=True)`: stable sort by
the raw `last_checked` string, descending. -/
def sortRowsDesc : List RecentRow → List RecentRow
  | [] => []
  | x :: xs => insertRowDesc x (sortRowsDesc xs)

/-- The Recent Activity section's data: the first 10 rows of the
descending-sorted list (`recent_updates[:10]`). -/
def recent_updates (s : StatusData) : List RecentRow :=
  (sortRowsDesc (recentRows s)).take 10

/-- The property §4.5 of the spec asserts of the sorted list: every row
whose `last_checked` is the sentinel `"never"` comes after all rows bearing
real timestamps — i.e. once a `"never"` row appears, every later row is
also `"never"`. -/
def neverRowsLast (l : List RecentRow) : Prop :=
  List.Pairwise (fun a b => a.last_checked = "never" → b.last_checked = "never") l

instance (l : List RecentRow) : Decidable (neverRowsLast l) := by
  unfold neverRowsLast
  exact List.instDecidablePairwise l

/-! ### Status Updater CLI (`main` / `load_current_status`) -/

/-- `load_current_status`: `sys.exit(1)` when the status file is missing,
otherwise parse it. -/
def load_current_status (file : Option StatusData) : Except Nat StatusData :=
  match file with
  | none => Except.error 1
  | some s => Except.ok s

/-- The `--req-id … --level` branch of `main` as one run: load the status
file (propagating `sys.exit(1)` when it is missing), then run the update.
The boolean result of `update_requirement_status` is what the Python
function returns to `main`. -/
def run_update_cli (file : Option StatusData) (req_id : String) (level : Int)
    (implementation test_file notes now : String) : Except Nat (Bool × StatusData) :=
  match load_current_status file with
  | Except.error c => Except.error c
  | Except.ok s =>
      Except.ok (update_requirement_status req_id level implementation test_file notes now s)

/-- The exit code of `main`'s `--req-id … --level` dispatch, reached only
after `parse_args()` has accepted the arguments: the `sys.exit` code when
one was raised (missing status file); otherwise `main` returns normally —
discarding the updater's boolean result — and the process exits 0. -/
def main_update_exit_code (file : Option StatusData) (req_id : String) (level : Int)
    (implementation test_file notes now : String) : Nat :=
  match run_update_cli file req_id level implementation test_file notes now with
  | Except.error c => c
  | Except.ok _ => 0

/-- The whole `--req-id … --level` process, argument parsing included:
`main` declares `--level` with `type=int, choices=[0,1,2,3,4]`, so
`parse_args()` terminates the process with argparse's exit code 2 when the
parsed integer is outside the choices, before the dispatch (and before any
file access); otherwise the dispatch runs. -/
def cli_update_exit_code (file : Option StatusData) (req_id : String) (level : Int)
    (implementation test_file notes now : String) : Nat :=
  if ¬ (level = 0 ∨ level = 1 ∨ level = 2 ∨ level = 3 ∨ level = 4) then 2
  else main_update_exit_code file req_id level implementation test_file notes now

/-! ### Evidence Scanner (`master_compliance_analyzer.py`) -/

/-- Does `needle` occur at the head of `hay`?  (Character-wise match;
helper for the substring count.) -/
def leadsWith : List Char → List Char → Bool
  | [], _ => true
  | _ :: _, [] => false
  | a :: as, b :: bs => a = b && leadsWith as bs

/-- Python `hay.count(needle)`: the number of non-overlapping occurrences
of `needle` in `hay`, scanning left to right (and `len(hay) + 1` for the
empty needle, as in CPython). -/
def countOcc (needle : List Char) (hay : List Char) : Nat :=
  match needle with
  | [] => hay.length + 1
  | n :: ns => go (n :: ns) hay
where
  go (nd : List Char) : List Char → Nat
    | [] => 0
    | c :: rest =>
      if leadsWith nd (c :: rest) then
        1 + go nd (List.drop (nd.length - 1) rest)
      else
        go nd rest
  termination_by l => l.length
  decreasing_by
    · simp only [List.length_drop, List.length_cons]
      omega
    · simp only [List.length_cons]
      omega

/-- The double loop of `_calculate_evidence_score`: for each keyword, for
each scanned file, when the keyword occurs in the file add its occurrence
count capped at 5. -/
def evidence_score (keywords : List (List Char)) (files : List (List Char)) : Nat :=
  keywords.foldl
    (fun score kw =>
      files.foldl
        (fun sc file => if 0 < countOcc kw file then sc + min (countOcc kw file) 5 else sc)
        score)
    0

/-- The per-file, per-keyword cap of `_calculate_evidence_score`. -/
def scoreCap : Nat := 5

/-- The `implemented` threshold hard-coded in `analyze_implementation`. -/
def scoreFullThreshold : Nat := 20

/-- The `partial` threshold hard-coded in `analyze_implementation`. -/
def scorePartThreshold : Nat := 8

/-- The three classification outcomes of `analyze_implementation`. -/
inductive ImplClass where
  | implFull
  | implPart
  | implMissing
deriving DecidableEq

/-- The classification ladder of `analyze_implementation`: score ≥ 20 →
implemented, else score ≥ 8 → partial, else missing. -/
def classifyEvidence (score : Nat) : ImplClass :=
  if scoreFullThreshold ≤ score then ImplClass.implFull
  else if scorePartThreshold ≤ score then ImplClass.implPart
  else ImplClass.implMissing

/-! ### Spec-side derived quantities

These definitions follow the spec's wording for the quantities the stored
Statistics block must be derivable from, to be compared with what the code
computes. -/

/-- The number of entries at exactly level `i`. -/
def countLevel (i : Int) (entries : List (String × VerificationEntry)) : Nat :=
  entries.countP (fun p => decide (p.2.level = i))

/-- The sum of all entry levels. -/
def levelSum (entries : List (String × VerificationEntry)) : Int :=
  (entries.map (fun p => p.2.level)).sum

/-- Every entry's level lies in the `[0,4]` state machine. -/
def allLevelsValid (entries : List (String × VerificationEntry)) : Prop :=
  ∀ p ∈ entries, 0 ≤ p.2.level ∧ p.2.level ≤ 4

instance (entries : List (String × VerificationEntry)) : Decidable (allLevelsValid entries) := by
  unfold allLevelsValid
  exact List.decidableBAll _ entries

/-- Every entry's `verified` flag is the derived value `level ≥ 3`. -/
def verifiedConsistent (entries : List (String × VerificationEntry)) : Prop :=
  ∀ p ∈ entries, p.2.verified = decide (3 ≤ p.2.level)

instance (entries : List (String × VerificationEntry)) : Decidable (verifiedConsistent entries) := by
  unfold verifiedConsistent
  exact List.decidableBAll _ entries

/-- The spec's exact average level, `Σ(level·count)/total`, as a rational
(0 for an empty entry set). -/
def derivedAverage (entries : List (String × VerificationEntry)) : ℚ :=
  if entries.length = 0 then 0
  else ((0 * (countLevel 0 entries : ℤ) + 1 * countLevel 1 entries + 2 * countLevel 2 entries
          + 3 * countLevel 3 entries + 4 * countLevel 4 entries : ℤ) : ℚ)
        / (entries.length : ℚ)

/-! ### Concrete fixtures

Small concrete status files used to evaluate the model at explicit
inputs. -/

/-- A status file whose two entries sit under the updater's escaped
composite keys, so that `update_requirement_status` can find them. -/
def sampleEscapedLedger : StatusData :=
  { metadata :=
      { last_updated := "t0"
      , matrix_version := "1.0"
      , total_requirements := 2
      , note := ""
      , warning := "" }
  , entries := [(escapedKey "7.1", initialEntry), (escapedKey "7.2", initialEntry)]
  , statistics :=
      { level_0_count := 2
      , level_1_count := 0
      , level_2_count := 0
      , level_3_count := 0
      , level_4_count := 0
      , average_level := 0
      , compliance_percentage := 0
      , last_calculated := "t0" } }

/-- A status file with one really-timestamped entry and one untouched
(`last_checked = "never"`) entry, for the recent-activity sort. -/
def sampleRecentLedger : StatusData :=
  { metadata :=
      { last_updated := "t0"
      , matrix_version := "1.0"
      , total_requirements := 2
      , note := ""
      , warning := "" }
  , entries :=
      [ (plainKey "7.1",
          { level := 3
          , implementation := "src/document.rs"
          , test_file := "tests/test_catalog.rs"
          , verified := true
          , last_checked := "2024-06-01T10:00:00"
          , notes := "ok" })
      , (plainKey "7.2", initialEntry) ]
  , statistics :=
      { level_0_count := 1
      , level_1_count := 0
      , level_2_count := 0
      , level_3_count := 1
      , level_4_count := 0
      , average_level := 3 / 2
      , compliance_percentage := 75 / 2
      , last_calculated := "t0" } }

/-! ## Dictionary lemmas -/

theorem dictGet_dictInsert_self {α : Type} (k : String) (v : α) (d : List (String × α)) :
    dictGet k (dictInsert k v d) = some v := by
  induction d with
  | nil => simp [dictInsert, dictGet]
  | cons p d ih =>
    by_cases h : p.1 = k
    · simp [dictInsert, dictGet, h]
    · simp [dictInsert, dictGet, h, ih]

theorem dictGet_dictInsert_ne {α : Type} {k k' : String} (v : α) (d : List (String × α))
    (h : k' ≠ k) : dictGet k' (dictInsert k v d) = dictGet k' d := by
  have hk : k ≠ k' := Ne.symm h
  induction d with
  | nil => simp [dictInsert, dictGet, hk]
  | cons p d ih =>
    obtain ⟨qk, qv⟩ := p
    by_cases hq : qk = k
    · subst hq
      simp [dictInsert, dictGet, hk]
    · simp [dictInsert, dictGet, hq, ih]

theorem mem_dictInsert {α : Type} {k : String} {v : α} {d : List (String × α)}
    {p : String × α} (h : p ∈ dictInsert k v d) : p = (k, v) ∨ p ∈ d := by
  induction d with
  | nil => simpa [dictInsert] using h
  | cons q d ih =>
    by_cases hq : q.1 = k
    · simp only [dictInsert, if_pos hq] at h
      rcases List.mem_cons.mp h with h | h
      · exact Or.inl h
      · exact Or.inr (List.mem_cons_of_mem _ h)
    · simp only [dictInsert, if_neg hq] at h
      rcases List.mem_cons.mp h with h | h
      · exact Or.inr (h ▸ List.mem_cons_self _ _)
      · rcases ih h with h | h
        · exact Or.inl h
        · exact Or.inr (List.mem_cons_of_mem _ h)

theorem mem_dictKeys_dictInsert {α : Type} {k k' : String} {v : α} {d : List (String × α)} :
    k' ∈ dictKeys (dictInsert k v d) ↔ k' = k ∨ k' ∈ dictKeys d := by
  induction d with
  | nil => simp [dictInsert, dictKeys]
  | cons q d ih =>
    by_cases hq : q.1 = k
    · subst hq
      simp only [dictInsert, if_pos rfl, dictKeys, List.map_cons]
      constructor
      · intro h
        rcases List.mem_cons.mp h with h | h
        · exact Or.inl h
        · exact Or.inr (List.mem_cons_of_mem _ h)
      · intro h
        rcases h with h | h
        · exact h ▸ List.mem_cons_self _ _
        · rcases List.mem_cons.mp h with h | h
          · exact h ▸ List.mem_cons_self _ _
          · exact List.mem_cons_of_mem _ h
    · simp only [dictInsert, if_neg hq, dictKeys, List.map_cons]
      simp only [dictKeys] at ih
      constructor
      · intro h
        rcases List.mem_cons.mp h with h | h
        · exact Or.inr (h ▸ List.mem_cons_self _ _)
        · rcases ih.mp h with h | h
          · exact Or.inl h
          · exact Or.inr (List.mem_cons_of_mem _ h)
      · intro h
        rcases h with h | h
        · exact List.mem_cons_of_mem _ (ih.mpr (Or.inl h))
        · rcases List.mem_cons.mp h with h | h
          · exact h ▸ List.mem_cons_self _ _
          · exact List.mem_cons_of_mem _ (ih.mpr (Or.inr h))

theorem length_dictInsert_of_mem {α : Type} {k : String} (v : α) {d : List (String × α)}
    (h : k ∈ dictKeys d) : (dictInsert k v d).length = d.length := by
  induction d with
  | nil => simp [dictKeys] at h
  | cons q d ih =>
    by_cases hq : q.1 = k
    · simp [dictInsert, hq]
    · have h' : k ∈ dictKeys d := by
        rcases List.mem_cons.mp h with h | h
        · exact absurd h.symm hq
        · exact h
      simp [dictInsert, hq, ih h']

theorem length_dictInsert_of_not_mem {α : Type} {k : String} (v : α) {d : List (String × α)}
    (h : k ∉ dictKeys d) : (dictInsert k v d).length = d.length + 1 := by
  induction d with
  | nil => simp [dictInsert]
  | cons q d ih =>
    have hq : q.1 ≠ k := fun hh => h (hh ▸ List.mem_cons_self _ _)
    have h' : k ∉ dictKeys d := fun hh => h (List.mem_cons_of_mem _ hh)
    simp [dictInsert, hq, ih h']

theorem length_dictInsert_le {α : Type} (k : String) (v : α) (d : List (String × α)) :
    (dictInsert k v d).length ≤ d.length + 1 := by
  by_cases h : k ∈ dictKeys d
  · rw [length_dictInsert_of_mem v h]; omega
  · rw [length_dictInsert_of_not_mem v h]

theorem dictKeys_dictInsert_of_mem {α : Type} {k : String} (v : α) {d : List (String × α)}
    (h : k ∈ dictKeys d) : dictKeys (dictInsert k v d) = dictKeys d := by
  induction d with
  | nil => simp [dictKeys] at h
  | cons q d ih =>
    by_cases hq : q.1 = k
    · simp [dictInsert, hq, dictKeys]
    · have h' : k ∈ dictKeys d := by
        rcases List.mem_cons.mp h with h | h
        · exact absurd h.symm hq
        · exact h
      simp only [dictInsert, if_neg hq, dictKeys, List.map_cons]
      simp only [dictKeys] at ih
      rw [ih h']

theorem dictInsert_dictInsert {α : Type} (k : String) (v v' : α) (d : List (String × α)) :
    dictInsert k v' (dictInsert k v d) = dictInsert k v' d := by
  induction d with
  | nil => simp [dictInsert]
  | cons q d ih =>
    by_cases hq : q.1 = k
    · simp [dictInsert, hq]
    · simp [dictInsert, hq, ih]

theorem map_value_dictInsert {α β : Type} (g : α → β) (k : String) (v : α)
    (d : List (String × α)) :
    (dictInsert k v d).map (fun p => (p.1, g p.2)) =
      dictInsert k (g v) (d.map (fun p => (p.1, g p.2))) := by
  induction d with
  | nil => simp [dictInsert]
  | cons q d ih =>
    by_cases hq : q.1 = k
    · simp [dictInsert, hq]
    · simp [dictInsert, hq, ih]

/-! ## Key-shape lemmas -/

theorem plainKey_injective {a b : String} (h : plainKey a = plainKey b) : a = b := by
  unfold plainKey at h
  have hd := congrArg String.data h
  simp only [String.data_append] at hd
  have := List.append_cancel_right hd
  have := List.append_cancel_left this
  exact String.ext this

theorem escapedKey_ne_plainKey (a b : String) : escapedKey a ≠ plainKey b := by
  intro h
  have hd := congrArg String.data h
  unfold escapedKey plainKey at hd
  simp only [String.data_append] at hd
  have h8 := congrArg (fun l => l.get? 7) hd
  simp [String.data] at h8

/-! ## Lemmas about the initializer's entry dictionary -/

theorem initFold_values {d0 : List (String × VerificationEntry)} {ids : List String}
    (h0 : ∀ p ∈ d0, p.2 = initialEntry) :
    ∀ p ∈ ids.foldl (fun d req_id => dictInsert (plainKey req_id) initialEntry d) d0,
      p.2 = initialEntry := by
  induction ids generalizing d0 with
  | nil => exact h0
  | cons a ids ih =>
    intro p hp
    refine ih (fun q hq => ?_) p hp
    rcases mem_dictInsert hq with h | h
    · rw [h]
    · exact h0 q h

theorem initFold_mem_keys {d0 : List (String × VerificationEntry)} {ids : List String}
    {k : String} :
    k ∈ dictKeys (ids.foldl (fun d req_id => dictInsert (plainKey req_id) initialEntry d) d0)
      ↔ k ∈ dictKeys d0 ∨ ∃ id ∈ ids, k = plainKey id := by
  induction ids generalizing d0 with
  | nil => simp
  | cons a ids ih =>
    simp only [List.foldl_cons]
    rw [ih]
    rw [mem_dictKeys_dictInsert]
    constructor
    · rintro (⟨h | h⟩ | ⟨id, hid, rfl⟩)
      · exact Or.inr ⟨a, List.mem_cons_self _ _, h⟩
      · exact Or.inl h
      · exact Or.inr ⟨id, List.mem_cons_of_mem _ hid, rfl⟩
    · rintro (h | ⟨id, hid, rfl⟩)
      · exact Or.inl (Or.inr h)
      · rcases List.mem_cons.mp hid with h | h
        · exact Or.inl (Or.inl (by rw [h]))
        · exact Or.inr ⟨id, h, rfl⟩

theorem dictGet_of_mem_keys {α : Type} {k : String} {d : List (String × α)}
    (h : k ∈ dictKeys d) : ∃ v, dictGet k d = some v := by
  induction d with
  | nil => simp [dictKeys] at h
  | cons q d ih =>
    obtain ⟨qk, qv⟩ := q
    by_cases hq : qk = k
    · exact ⟨qv, by simp [dictGet, hq]⟩
    · have h' : k ∈ dictKeys d := by
        rcases List.mem_cons.mp h with h | h
        · exact absurd h.symm hq
        · exact h
      obtain ⟨v, hv⟩ := ih h'
      exact ⟨v, by simp [dictGet, hq, hv]⟩

theorem dictGet_eq_some_mem {α : Type} {k : String} {d : List (String × α)} {v : α}
    (h : dictGet k d = some v) : (k, v) ∈ d := by
  induction d with
  | nil => simp [dictGet] at h
  | cons q d ih =>
    obtain ⟨qk, qv⟩ := q
    by_cases hq : qk = k
    · subst hq
      have hv : qv = v := by simpa [dictGet] using h
      rw [← hv]
      exact List.mem_cons_self _ _
    · simp only [dictGet, if_neg hq] at h
      exact List.mem_cons_of_mem _ (ih h)

theorem initFold_get {ids : List String} {id : String} (h : id ∈ ids) :
    dictGet (plainKey id)
        (ids.foldl (fun d req_id => dictInsert (plainKey req_id) initialEntry d) [])
      = some initialEntry := by
  have hk : plainKey id ∈
      dictKeys (ids.foldl (fun d req_id => dictInsert (plainKey req_id) initialEntry d) []) :=
    initFold_mem_keys.mpr (Or.inr ⟨id, h, rfl⟩)
  obtain ⟨v, hv⟩ := dictGet_of_mem_keys hk
  have hval : v = initialEntry :=
    @initFold_values [] ids (by simp) _ (dictGet_eq_some_mem hv)
  rw [hv, hval]

theorem dictKeys_dictInsert_of_not_mem {α : Type} {k : String} (v : α)
    {d : List (String × α)} (h : k ∉ dictKeys d) :
    dictKeys (dictInsert k v d) = dictKeys d ++ [k] := by
  induction d with
  | nil => simp [dictInsert, dictKeys]
  | cons q d ih =>
    have hq : q.1 ≠ k := fun hh => h (hh ▸ List.mem_cons_self _ _)
    have h' : k ∉ dictKeys d := fun hh => h (List.mem_cons_of_mem _ hh)
    simp only [dictInsert, if_neg hq, dictKeys, List.map_cons]
    simp only [dictKeys] at ih
    rw [ih h']
    rfl

theorem nodup_dictKeys_dictInsert {α : Type} {k : String} (v : α) {d : List (String × α)}
    (h : (dictKeys d).Nodup) : (dictKeys (dictInsert k v d)).Nodup := by
  by_cases hk : k ∈ dictKeys d
  · rw [dictKeys_dictInsert_of_mem v hk]; exact h
  · rw [dictKeys_dictInsert_of_not_mem v hk]
    refine List.Nodup.append h (by simp) ?_
    intro a ha hb
    have : a = k := by simpa using hb
    exact hk (this ▸ ha)

theorem initFold_keys_nodup {d0 : List (String × VerificationEntry)} {ids : List String}
    (h0 : (dictKeys d0).Nodup) :
    (dictKeys (ids.foldl (fun d req_id => dictInsert (plainKey req_id) initialEntry d) d0)).Nodup := by
  induction ids generalizing d0 with
  | nil => exact h0
  | cons a ids ih => exact ih (nodup_dictKeys_dictInsert _ h0)

theorem initFold_length_of_nodup {ids : List String} {d0 : List (String × VerificationEntry)}
    (hd : ∀ id ∈ ids, plainKey id ∉ dictKeys d0) (h : ids.Nodup) :
    (ids.foldl (fun d req_id => dictInsert (plainKey req_id) initialEntry d) d0).length
      = d0.length + ids.length := by
  induction ids generalizing d0 with
  | nil => simp
  | cons a ids ih =>
    have ha : plainKey a ∉ dictKeys d0 := hd a (List.mem_cons_self _ _)
    have hlen := @length_dictInsert_of_not_mem _ _ initialEntry d0 ha
    have hd' : ∀ id ∈ ids, plainKey id ∉ dictKeys (dictInsert (plainKey a) initialEntry d0) := by
      intro id hid hmem
      rcases mem_dictKeys_dictInsert.mp hmem with hmem | hmem
      · have : id = a := plainKey_injective hmem
        exact (List.nodup_cons.mp h).1 (this ▸ hid)
      · exact hd id (List.mem_cons_of_mem _ hid) hmem
    simp only [List.foldl_cons]
    rw [ih hd' (List.nodup_cons.mp h).2, hlen]
    simp only [List.length_cons]
    omega

theorem initFold_length_le (ids : List String) (d0 : List (String × VerificationEntry)) :
    (ids.foldl (fun d req_id => dictInsert (plainKey req_id) initialEntry d) d0).length
      ≤ d0.length + ids.length := by
  induction ids generalizing d0 with
  | nil => simp
  | cons a ids ih =>
    simp only [List.foldl_cons]
    calc (ids.foldl _ (dictInsert (plainKey a) initialEntry d0)).length
        ≤ (dictInsert (plainKey a) initialEntry d0).length + ids.length := ih _
      _ ≤ (d0.length + 1) + ids.length := by
          have := length_dictInsert_le (plainKey a) initialEntry d0
          omega
      _ = d0.length + (a :: ids).length := by simp only [List.length_cons]; omega

theorem initFold_length_lt {ids : List String} {d0 : List (String × VerificationEntry)}
    (h : (∃ id ∈ ids, plainKey id ∈ dictKeys d0) ∨ ¬ ids.Nodup) :
    (ids.foldl (fun d req_id => dictInsert (plainKey req_id) initialEntry d) d0).length
      < d0.length + ids.length := by
  induction ids generalizing d0 with
  | nil =>
    rcases h with ⟨id, hid, _⟩ | h
    · simp at hid
    · exact absurd List.nodup_nil h
  | cons a ids ih =>
    simp only [List.foldl_cons]
    have hsub : (∃ id ∈ ids, plainKey id ∈ dictKeys (dictInsert (plainKey a) initialEntry d0))
        ∨ ¬ ids.Nodup →
        (ids.foldl (fun d req_id => dictInsert (plainKey req_id) initialEntry d)
            (dictInsert (plainKey a) initialEntry d0)).length
          < (dictInsert (plainKey a) initialEntry d0).length + ids.length := ih
    rcases h with ⟨id, hid, hkey⟩ | h
    · rcases List.mem_cons.mp hid with rfl | hid
      · have hlen := @length_dictInsert_of_mem _ _ initialEntry d0 hkey
        have := initFold_length_le ids (dictInsert (plainKey id) initialEntry d0)
        simp only [List.length_cons]
        omega
      · have hkey' : plainKey id ∈ dictKeys (dictInsert (plainKey a) initialEntry d0) :=
          mem_dictKeys_dictInsert.mpr (Or.inr hkey)
        have := hsub (Or.inl ⟨id, hid, hkey'⟩)
        have hle := length_dictInsert_le (plainKey a) initialEntry d0
        simp only [List.length_cons]
        omega
    · by_cases hmem : a ∈ ids
      · have hkey' : plainKey a ∈ dictKeys (dictInsert (plainKey a) initialEntry d0) :=
          mem_dictKeys_dictInsert.mpr (Or.inl rfl)
        have := hsub (Or.inl ⟨a, hmem, hkey'⟩)
        have hle := length_dictInsert_le (plainKey a) initialEntry d0
        simp only [List.length_cons]
        omega
      · have h2 : ¬ ids.Nodup := fun hn => h (List.nodup_cons.mpr ⟨hmem, hn⟩)
        have := hsub (Or.inr h2)
        have hle := length_dictInsert_le (plainKey a) initialEntry d0
        simp only [List.length_cons]
        omega

/-! ## Lemmas about `sorted` -/

theorem lexLeNat_total (l1 l2 : List Nat) : lexLeNat l1 l2 = true ∨ lexLeNat l2 l1 = true := by
  induction l1 generalizing l2 with
  | nil => exact Or.inl rfl
  | cons a as ih =>
    cases l2 with
    | nil => exact Or.inr rfl
    | cons b bs =>
      rcases Nat.lt_trichotomy a b with h | h | h
      · exact Or.inl (by simp [lexLeNat, h])
      · subst h
        rcases ih bs with hh | hh
        · exact Or.inl (by simp [lexLeNat, hh])
        · exact Or.inr (by simp [lexLeNat, hh])
      · exact Or.inr (by simp [lexLeNat, h])

theorem lexLeNat_cons {a b : Nat} {as bs : List Nat} :
    lexLeNat (a :: as) (b :: bs) = true ↔ a < b ∨ (a = b ∧ lexLeNat as bs = true) := by
  simp only [lexLeNat]
  by_cases h1 : a < b
  · simp [h1]
  · by_cases h2 : b < a
    · simp only [if_neg h1, if_pos h2]
      constructor
      · intro h
        exact absurd h (by simp)
      · intro h
        rcases h with h | ⟨h, _⟩ <;> omega
    · have hab : a = b := by omega
      simp [h1, h2, hab]

theorem lexLeNat_trans {l1 l2 l3 : List Nat} (h12 : lexLeNat l1 l2 = true)
    (h23 : lexLeNat l2 l3 = true) : lexLeNat l1 l3 = true := by
  induction l1 generalizing l2 l3 with
  | nil => rfl
  | cons a as ih =>
    cases l2 with
    | nil => simp [lexLeNat] at h12
    | cons b bs =>
      cases l3 with
      | nil => simp [lexLeNat] at h23
      | cons c cs =>
        rcases lexLeNat_cons.mp h12 with hab | ⟨hab, h12'⟩ <;>
          rcases lexLeNat_cons.mp h23 with hbc | ⟨hbc, h23'⟩
        · exact lexLeNat_cons.mpr (Or.inl (Nat.lt_trans hab hbc))
        · exact lexLeNat_cons.mpr (Or.inl (hbc ▸ hab))
        · exact lexLeNat_cons.mpr (Or.inl (hab ▸ hbc))
        · exact lexLeNat_cons.mpr (Or.inr ⟨hab.trans hbc, ih h12' h23'⟩)

theorem strLe_total (a b : String) : strLe a b = true ∨ strLe b a = true :=
  lexLeNat_total _ _

theorem strLe_trans {a b c : String} (h1 : strLe a b = true) (h2 : strLe b c = true) :
    strLe a c = true :=
  lexLeNat_trans h1 h2

theorem strLe_of_not_strLe {a b : String} (h : ¬ strLe a b = true) : strLe b a = true := by
  rcases strLe_total a b with hh | hh
  · exact absurd hh h
  · exact hh

theorem insertAsc_perm (x : String) (l : List String) : List.Perm (insertAsc x l) (x :: l) := by
  induction l with
  | nil => exact List.Perm.refl _
  | cons y ys ih =>
    by_cases h : strLe x y = true
    · simp only [insertAsc, if_pos h]
      exact List.Perm.refl _
    · simp only [insertAsc, if_neg h]
      exact List.Perm.trans (List.Perm.cons y ih) (List.Perm.swap x y ys)

theorem sortedStr_perm (l : List String) : List.Perm (sortedStr l) l := by
  induction l with
  | nil => exact List.Perm.refl _
  | cons x xs ih =>
    exact List.Perm.trans (insertAsc_perm x (sortedStr xs)) (List.Perm.cons x ih)

/-! ## Lemmas about the statistics recomputation -/

theorem foldl_statStep_eq {entries : List (String × VerificationEntry)}
    (h : allLevelsValid entries) (a : StatAcc) :
    entries.foldl statStep a =
      ⟨a.c0 + countLevel 0 entries, a.c1 + countLevel 1 entries, a.c2 + countLevel 2 entries,
       a.c3 + countLevel 3 entries, a.c4 + countLevel 4 entries,
       a.total_level + levelSum entries, a.total + entries.length⟩ := by
  induction entries generalizing a with
  | nil => simp [countLevel, levelSum]
  | cons p l ih =>
    have hp := h p (List.mem_cons_self _ _)
    have h' : allLevelsValid l := fun q hq => h q (List.mem_cons_of_mem _ hq)
    simp only [List.foldl_cons]
    rw [ih h']
    simp only [statStep, if_pos hp, StatAcc.mk.injEq]
    refine ⟨?_, ?_, ?_, ?_, ?_, ?_, ?_⟩
    · simp only [countLevel, List.countP_cons]
      by_cases hi : p.2.level = 0 <;> simp [hi] <;> omega
    · simp only [countLevel, List.countP_cons]
      by_cases hi : p.2.level = 1 <;> simp [hi] <;> omega
    · simp only [countLevel, List.countP_cons]
      by_cases hi : p.2.level = 2 <;> simp [hi] <;> omega
    · simp only [countLevel, List.countP_cons]
      by_cases hi : p.2.level = 3 <;> simp [hi] <;> omega
    · simp only [countLevel, List.countP_cons]
      by_cases hi : p.2.level = 4 <;> simp [hi] <;> omega
    · simp only [levelSum, List.map_cons, List.sum_cons]
      omega
    · simp only [List.length_cons]
      omega

theorem statAccOf_eq {entries : List (String × VerificationEntry)}
    (h : allLevelsValid entries) :
    statAccOf entries =
      ⟨countLevel 0 entries, countLevel 1 entries, countLevel 2 entries,
       countLevel 3 entries, countLevel 4 entries, levelSum entries, entries.length⟩ := by
  unfold statAccOf
  rw [foldl_statStep_eq h]
  simp

theorem levelSum_eq_weighted {entries : List (String × VerificationEntry)}
    (h : allLevelsValid entries) :
    levelSum entries =
      0 * (countLevel 0 entries : ℤ) + 1 * (countLevel 1 entries : ℤ)
        + 2 * (countLevel 2 entries : ℤ) + 3 * (countLevel 3 entries : ℤ)
        + 4 * (countLevel 4 entries : ℤ) := by
  induction entries with
  | nil => simp [levelSum, countLevel]
  | cons p l ih =>
    have hp := h p (List.mem_cons_self _ _)
    have h' : allLevelsValid l := fun q hq => h q (List.mem_cons_of_mem _ hq)
    have hl := ih h'
    have hcases : p.2.level = 0 ∨ p.2.level = 1 ∨ p.2.level = 2 ∨ p.2.level = 3
        ∨ p.2.level = 4 := by omega
    simp only [levelSum, List.map_cons, List.sum_cons, countLevel, List.countP_cons] at hl ⊢
    rcases hcases with h0 | h0 | h0 | h0 | h0 <;> simp [h0] <;> push_cast <;> omega

theorem countLevel_sum_eq_length {entries : List (String × VerificationEntry)}
    (h : allLevelsValid entries) :
    countLevel 0 entries + countLevel 1 entries + countLevel 2 entries
      + countLevel 3 entries + countLevel 4 entries = entries.length := by
  induction entries with
  | nil => simp [countLevel]
  | cons p l ih =>
    have hp := h p (List.mem_cons_self _ _)
    have h' : allLevelsValid l := fun q hq => h q (List.mem_cons_of_mem _ hq)
    have hl := ih h'
    have hcases : p.2.level = 0 ∨ p.2.level = 1 ∨ p.2.level = 2 ∨ p.2.level = 3
        ∨ p.2.level = 4 := by omega
    simp only [countLevel, List.countP_cons, List.length_cons] at hl ⊢
    rcases hcases with h0 | h0 | h0 | h0 | h0 <;> simp [h0] <;> omega

theorem statStep_level_congr {a : StatAcc} {p q : String × VerificationEntry}
    (h : p.2.level = q.2.level) : statStep a p = statStep a q := by
  simp only [statStep, h]

theorem foldl_statStep_level_congr {l1 l2 : List (String × VerificationEntry)}
    (h : List.Forall₂ (fun p q => p.2.level = q.2.level) l1 l2) :
    ∀ a : StatAcc, l1.foldl statStep a = l2.foldl statStep a := by
  induction h with
  | nil => intro a; rfl
  | cons hpq _ ih =>
    intro a
    simp only [List.foldl_cons]
    rw [statStep_level_congr hpq]
    exact ih _

theorem forall₂_level_dictInsert {k : String} {v v' : VerificationEntry}
    (d : List (String × VerificationEntry)) (h : v.level = v'.level) :
    List.Forall₂ (fun p q => p.2.level = q.2.level) (dictInsert k v d) (dictInsert k v' d) := by
  induction d with
  | nil => exact List.Forall₂.cons h List.Forall₂.nil
  | cons q d ih =>
    by_cases hq : q.1 = k
    · simp only [dictInsert, if_pos hq]
      exact List.Forall₂.cons h (List.forall₂_same.mpr (fun _ _ => rfl))
    · simp only [dictInsert, if_neg hq]
      exact List.Forall₂.cons rfl ih

/-! ## Rounding bound -/

theorem abs_roundQ_sub_le (d : ℕ) (x : ℚ) : |roundQ d x - x| ≤ 1 / (2 * 10 ^ d) := by
  unfold roundQ
  have hpow : (0 : ℚ) < 10 ^ d := by positivity
  have h := abs_sub_round (x * 10 ^ d)
  have hrw : ((round (x * 10 ^ d) : ℤ) : ℚ) / 10 ^ d - x
      = -((x * 10 ^ d - (round (x * 10 ^ d) : ℤ)) / 10 ^ d) := by
    field_simp
    ring
  rw [hrw, abs_neg, abs_div, abs_of_pos hpow, div_le_div_iff₀ hpow (by positivity)]
  nlinarith [h, hpow]

/-! ## Lemmas about the recent-activity sort -/

theorem insertRowDesc_perm (x : RecentRow) (l : List RecentRow) :
    List.Perm (insertRowDesc x l) (x :: l) := by
  induction l with
  | nil => exact List.Perm.refl _
  | cons y ys ih =>
    by_cases h : strLe y.last_checked x.last_checked = true
    · simp only [insertRowDesc, if_pos h]
      exact List.Perm.refl _
    · simp only [insertRowDesc, if_neg h]
      exact List.Perm.trans (List.Perm.cons y ih) (List.Perm.swap x y ys)

theorem sortRowsDesc_perm (l : List RecentRow) : List.Perm (sortRowsDesc l) l := by
  induction l with
  | nil => exact List.Perm.refl _
  | cons x xs ih =>
    exact List.Perm.trans (insertRowDesc_perm x (sortRowsDesc xs)) (List.Perm.cons x ih)

theorem mem_insertRowDesc {z x : RecentRow} {l : List RecentRow} :
    z ∈ insertRowDesc x l ↔ z = x ∨ z ∈ l := by
  rw [(insertRowDesc_perm x l).mem_iff]
  exact List.mem_cons

theorem pairwise_insertRowDesc {x : RecentRow} {l : List RecentRow}
    (h : List.Pairwise (fun a b => strLe b.last_checked a.last_checked = true) l) :
    List.Pairwise (fun a b => strLe b.last_checked a.last_checked = true)
      (insertRowDesc x l) := by
  induction l with
  | nil => simp [insertRowDesc]
  | cons y ys ih =>
    rcases List.pairwise_cons.mp h with ⟨hy, hys⟩
    by_cases hle : strLe y.last_checked x.last_checked = true
    · simp only [insertRowDesc, if_pos hle]
      refine List.pairwise_cons.mpr ⟨?_, h⟩
      intro b hb
      rcases List.mem_cons.mp hb with rfl | hb
      · exact hle
      · exact strLe_trans (hy b hb) hle
    · simp only [insertRowDesc, if_neg hle]
      refine List.pairwise_cons.mpr ⟨?_, ih hys⟩
      intro b hb
      rcases mem_insertRowDesc.mp hb with rfl | hb
      · exact strLe_of_not_strLe hle
      · exact hy b hb

theorem sortRowsDesc_pairwise (l : List RecentRow) :
    List.Pairwise (fun a b => strLe b.last_checked a.last_checked = true) (sortRowsDesc l) := by
  induction l with
  | nil => simp [sortRowsDesc]
  | cons x xs ih => exact pairwise_insertRowDesc ih

/-! ## Lemmas about the evidence score -/

theorem foldl_file_score (kw : List Char) (files : List (List Char)) (s : Nat) :
    files.foldl
        (fun sc file => if 0 < countOcc kw file then sc + min (countOcc kw file) 5 else sc) s
      = s + (files.map (fun f => min (countOcc kw f) scoreCap)).sum := by
  induction files generalizing s with
  | nil => simp
  | cons f fs ih =>
    simp only [List.foldl_cons, List.map_cons, List.sum_cons, ih, scoreCap]
    by_cases h : 0 < countOcc kw f
    · simp only [if_pos h]
      omega
    · have h0 : countOcc kw f = 0 := by omega
      simp only [if_neg h, h0]
      simp

theorem evidence_score_eq_sum (keywords : List (List Char)) (files : List (List Char)) :
    evidence_score keywords files
      = (keywords.map (fun kw => (files.map (fun f => min (countOcc kw f) scoreCap)).sum)).sum := by
  unfold evidence_score
  suffices h : ∀ s : Nat,
      keywords.foldl
          (fun score kw =>
            files.foldl
              (fun sc file =>
                if 0 < countOcc kw file then sc + min (countOcc kw file) 5 else sc)
              score)
          s
        = s + (keywords.map (fun kw => (files.map (fun f => min (countOcc kw f) scoreCap)).sum)).sum by
    simpa using h 0
  induction keywords with
  | nil => intro s; simp
  | cons kw kws ih =>
    intro s
    simp only [List.foldl_cons]
    rw [ih, foldl_file_score]
    simp only [List.map_cons, List.sum_cons]
    omega

/-! ## Characterizing the updater's success and failure -/

theorem update_eq_of_found {req_id : String} {level : Int}
    {implementation test_file notes now : String} {s : StatusData} {e : VerificationEntry}
    (hv : level = 0 ∨ level = 1 ∨ level = 2 ∨ level = 3 ∨ level = 4)
    (hg : dictGet (escapedKey req_id) s.entries = some e) :
    update_requirement_status req_id level implementation test_file notes now s =
      (true,
        { metadata := { s.metadata with last_updated := now }
        , entries := dictInsert (escapedKey req_id)
            { level := level
            , verified := decide (3 ≤ level)
            , last_checked := now
            , implementation := if implementation ≠ "" then implementation else e.implementation
            , test_file := if test_file ≠ "" then test_file else e.test_file
            , notes := if notes ≠ "" then notes else e.notes } s.entries
        , statistics := recalculate_statistics
            (dictInsert (escapedKey req_id)
              { level := level
              , verified := decide (3 ≤ level)
              , last_checked := now
              , implementation := if implementation ≠ "" then implementation else e.implementation
              , test_file := if test_file ≠ "" then test_file else e.test_file
              , notes := if notes ≠ "" then notes else e.notes } s.entries) now }) := by
  unfold update_requirement_status
  rw [if_neg (not_not_intro hv), hg]

theorem update_fst_true_elim {req_id : String} {level : Int}
    {implementation test_file notes now : String} {s : StatusData}
    (h : (update_requirement_status req_id level implementation test_file notes now s).1 = true) :
    (level = 0 ∨ level = 1 ∨ level = 2 ∨ level = 3 ∨ level = 4)
      ∧ ∃ e, dictGet (escapedKey req_id) s.entries = some e := by
  by_cases hv : level = 0 ∨ level = 1 ∨ level = 2 ∨ level = 3 ∨ level = 4
  · refine ⟨hv, ?_⟩
    cases hg : dictGet (escapedKey req_id) s.entries with
    | none =>
      unfold update_requirement_status at h
      rw [if_neg (not_not_intro hv), hg] at h
      simp at h
    | some e => exact ⟨e, rfl⟩
  · unfold update_requirement_status at h
    rw [if_pos hv] at h
    simp at h

theorem mem_keys_of_dictGet {α : Type} {k : String} {d : List (String × α)} {v : α}
    (h : dictGet k d = some v) : k ∈ dictKeys d :=
  List.mem_map.mpr ⟨(k, v), dictGet_eq_some_mem h, rfl⟩

theorem statAccOf_congr {l1 l2 : List (String × VerificationEntry)}
    (h : List.Forall₂ (fun p q => p.2.level = q.2.level) l1 l2) :
    statAccOf l1 = statAccOf l2 :=
  foldl_statStep_level_congr h _

theorem derivedAverage_eq_levelSum {entries : List (String × VerificationEntry)}
    (h : allLevelsValid entries) (hne : entries.length ≠ 0) :
    derivedAverage entries = ((levelSum entries : ℤ) : ℚ) / (entries.length : ℚ) := by
  unfold derivedAverage
  rw [if_neg hne, levelSum_eq_weighted h]

theorem statAvg_eq_derivedAverage {entries : List (String × VerificationEntry)}
    (h : allLevelsValid entries) (hne : entries ≠ []) :
    statAvg entries = derivedAverage entries := by
  have hlen : entries.length ≠ 0 := fun hl => hne (List.length_eq_zero.mp hl)
  unfold statAvg
  rw [statAccOf_eq h]
  rw [if_pos (by simpa using Nat.pos_of_ne_zero hlen)]
  rw [derivedAverage_eq_levelSum h hlen]

theorem if_ne_flip (p x : String) : (if p ≠ "" then p else x) = (if p = "" then x else p) := by
  by_cases h : p = "" <;> simp [h]

theorem dictInsert_ne_nil {α : Type} (k : String) (v : α) (d : List (String × α)) :
    dictInsert k v d ≠ [] := by
  cases d with
  | nil => simp [dictInsert]
  | cons q d =>
    by_cases hq : q.1 = k <;> simp [dictInsert, hq]

/-! ## Claim theorems -/

/-- C1: the claim says a `set_level` call succeeds on every id the
initializer seeded, because ids are stored and looked up under the same
plain key.  The code violates this: the initializer stores the entry under
the plain key `status."7.5.2.1"`, yet `update_requirement_status` looks the
id up under the escaped composite key (seven backslashes around each quote)
and therefore reports "not found" and fails for an id the initializer
demonstrably created — with a valid level 3.  The two key formats are
distinct strings. -/
theorem c1_seeded_id_update_fails :
    (update_requirement_status "7.5.2.1" 3 "" "" "" "t1"
        (create_initial_status ⟨"1.0", [["7.5.2.1"]]⟩ ["7.5.2.1"] "t0")).1 = false
    ∧ (update_requirement_status "7.5.2.1" 3 "" "" "" "t1"
        (create_initial_status ⟨"1.0", [["7.5.2.1"]]⟩ ["7.5.2.1"] "t0")).2
        = create_initial_status ⟨"1.0", [["7.5.2.1"]]⟩ ["7.5.2.1"] "t0"
    ∧ dictGet (plainKey "7.5.2.1")
        (create_initial_status ⟨"1.0", [["7.5.2.1"]]⟩ ["7.5.2.1"] "t0").entries
        = some initialEntry
    ∧ plainKey "7.5.2.1" ≠ escapedKey "7.5.2.1" := by
  refine ⟨rfl, ?_, rfl, by decide⟩
  have : dictGet (escapedKey "7.5.2.1")
      (create_initial_status ⟨"1.0", [["7.5.2.1"]]⟩ ["7.5.2.1"] "t0").entries = none := by
    decide
  unfold update_requirement_status
  rw [if_neg (by decide), this]

/-- C3: `set_level` with a level outside `[0,4]`, or with a requirement id
that the lookup does not find in the Ledger, returns `false` and leaves the
whole status file — entries, metadata and Statistics — exactly as it was:
the result is literally `(false, s)`, so the invalid level is never clamped
into a stored value. -/
theorem c3_invalid_input_no_mutation (s : StatusData) (req_id : String) (level : Int)
    (implementation test_file notes now : String)
    (h : ¬ (level = 0 ∨ level = 1 ∨ level = 2 ∨ level = 3 ∨ level = 4)
          ∨ dictGet (escapedKey req_id) s.entries = none) :
    update_requirement_status req_id level implementation test_file notes now s = (false, s) := by
  unfold update_requirement_status
  rcases h with h | h
  · rw [if_pos h]
  · by_cases hv : level = 0 ∨ level = 1 ∨ level = 2 ∨ level = 3 ∨ level = 4
    · rw [if_neg (not_not_intro hv), h]
    · rw [if_pos hv]

/-- Witness for C3 at concrete inputs: level 5 on a ledger that does hold
the requirement, and a valid level on an absent id; both leave the file
untouched. -/
theorem c3_invalid_input_no_mutation_witness :
    update_requirement_status "7.1" 5 "" "" "" "t1" sampleEscapedLedger
        = (false, sampleEscapedLedger)
    ∧ update_requirement_status "9.9.9" 2 "" "" "" "t1" sampleEscapedLedger
        = (false, sampleEscapedLedger) :=
  ⟨c3_invalid_input_no_mutation sampleEscapedLedger "7.1" 5 "" "" "" "t1" (Or.inl (by decide)),
   c3_invalid_input_no_mutation sampleEscapedLedger "9.9.9" 2 "" "" "" "t1" (Or.inr (by decide))⟩

/-- C4: initializing from a Matrix whose extracted id list is
duplicate-free creates exactly one entry per requirement id of the Matrix —
each at level 0, unverified, `last_checked = "never"` — with duplicate-free
keys, and the initial Statistics put every requirement in the level-0
bucket with average 0 and compliance 0. -/
theorem c4_initialize_seeds_all_ids (m : Matrix) (now : String)
    (h : (extract_all_requirement_ids m).Nodup) :
    (∀ id ∈ List.flatten m.sections,
        dictGet (plainKey id) (create_initial_status m (extract_all_requirement_ids m) now).entries
          = some
              { level := 0
              , implementation := ""
              , test_file := ""
              , verified := false
              , last_checked := "never"
              , notes := "Pendiente de verificación" })
    ∧ (create_initial_status m (extract_all_requirement_ids m) now).entries.length
        = (List.flatten m.sections).length
    ∧ (dictKeys (create_initial_status m (extract_all_requirement_ids m) now).entries).Nodup
    ∧ (create_initial_status m (extract_all_requirement_ids m) now).metadata.total_requirements
        = (List.flatten m.sections).length
    ∧ (create_initial_status m (extract_all_requirement_ids m) now).statistics
        = { level_0_count := (List.flatten m.sections).length
          , level_1_count := 0
          , level_2_count := 0
          , level_3_count := 0
          , level_4_count := 0
          , average_level := 0
          , compliance_percentage := 0
          , last_calculated := now } := by
  have hperm : List.Perm (extract_all_requirement_ids m) (List.flatten m.sections) :=
    sortedStr_perm _
  have hlen : (extract_all_requirement_ids m).length = (List.flatten m.sections).length :=
    hperm.length_eq
  refine ⟨?_, ?_, ?_, ?_, ?_⟩
  · intro id hid
    exact initFold_get (hperm.mem_iff.mpr hid)
  · show (List.foldl _ [] (extract_all_requirement_ids m)).length = _
    rw [initFold_length_of_nodup (by simp [dictKeys]) h]
    simpa using hlen
  · exact initFold_keys_nodup (by simp [dictKeys])
  · show (extract_all_requirement_ids m).length = _
    exact hlen
  · show Statistics.mk (extract_all_requirement_ids m).length 0 0 0 0 0 0 now = _
    rw [hlen]

/-- Witness for C4 at a concrete three-requirement Matrix. -/
theorem c4_initialize_seeds_all_ids_witness :
    (∀ id ∈ List.flatten (Matrix.mk "1.0" [["7.2", "7.1"], ["8.1"]]).sections,
        dictGet (plainKey id)
            (create_initial_status ⟨"1.0", [["7.2", "7.1"], ["8.1"]]⟩
              (extract_all_requirement_ids ⟨"1.0", [["7.2", "7.1"], ["8.1"]]⟩) "t0").entries
          = some
              { level := 0
              , implementation := ""
              , test_file := ""
              , verified := false
              , last_checked := "never"
              , notes := "Pendiente de verificación" })
    ∧ (create_initial_status ⟨"1.0", [["7.2", "7.1"], ["8.1"]]⟩
          (extract_all_requirement_ids ⟨"1.0", [["7.2", "7.1"], ["8.1"]]⟩) "t0").entries.length
        = (List.flatten (Matrix.mk "1.0" [["7.2", "7.1"], ["8.1"]]).sections).length
    ∧ (dictKeys (create_initial_status ⟨"1.0", [["7.2", "7.1"], ["8.1"]]⟩
          (extract_all_requirement_ids ⟨"1.0", [["7.2", "7.1"], ["8.1"]]⟩) "t0").entries).Nodup
    ∧ (create_initial_status ⟨"1.0", [["7.2", "7.1"], ["8.1"]]⟩
          (extract_all_requirement_ids ⟨"1.0", [["7.2", "7.1"], ["8.1"]]⟩)
          "t0").metadata.total_requirements
        = (List.flatten (Matrix.mk "1.0" [["7.2", "7.1"], ["8.1"]]).sections).length
    ∧ (create_initial_status ⟨"1.0", [["7.2", "7.1"], ["8.1"]]⟩
          (extract_all_requirement_ids ⟨"1.0", [["7.2", "7.1"], ["8.1"]]⟩) "t0").statistics
        = { level_0_count := (List.flatten (Matrix.mk "1.0" [["7.2", "7.1"], ["8.1"]]).sections).length
          , level_1_count := 0
          , level_2_count := 0
          , level_3_count := 0
          , level_4_count := 0
          , average_level := 0
          , compliance_percentage := 0
          , last_calculated := "t0" } :=
  c4_initialize_seeds_all_ids ⟨"1.0", [["7.2", "7.1"], ["8.1"]]⟩ "t0" (by decide)

/-- C6 counterexample: the claim says initialization rejects a Matrix with
duplicate requirement ids with an error.  The code has no such error path:
initializing from the duplicated id list `["7.1", "7.1"]` returns an
ordinary status file in which the two records were silently collapsed into
a single entry — while the metadata and the level-0 bucket still count both
records, so no rejection of any kind happened. -/
theorem c6_duplicates_not_rejected :
    (create_initial_status ⟨"1.0", [["7.1", "7.1"]]⟩ ["7.1", "7.1"] "t0").entries.length = 1
    ∧ (create_initial_status ⟨"1.0", [["7.1", "7.1"]]⟩
          ["7.1", "7.1"] "t0").metadata.total_requirements = 2
    ∧ (create_initial_status ⟨"1.0", [["7.1", "7.1"]]⟩
          ["7.1", "7.1"] "t0").statistics.level_0_count = 2 := by
  refine ⟨?_, rfl, rfl⟩
  decide

/-- C6 amended: initialization never fails on duplicate ids — it silently
collapses them, producing strictly fewer entries than input records (last
record wins the overwrite), while `metadata.total_requirements` still
counts every record of the duplicated list. -/
theorem c6_duplicates_silently_collapsed (m : Matrix) (ids : List String) (now : String)
    (h : ¬ ids.Nodup) :
    (create_initial_status m ids now).entries.length < ids.length
    ∧ (create_initial_status m ids now).metadata.total_requirements = ids.length := by
  refine ⟨?_, rfl⟩
  have := @initFold_length_lt ids ([] : List (String × VerificationEntry)) (Or.inr h)
  simpa using this

/-- Witness for the amended C6 at the concrete duplicated list. -/
theorem c6_duplicates_silently_collapsed_witness :
    (create_initial_status ⟨"1.0", [["7.1", "7.1"]]⟩ ["7.1", "7.1"] "t0").entries.length < 2
    ∧ (create_initial_status ⟨"1.0", [["7.1", "7.1"]]⟩
          ["7.1", "7.1"] "t0").metadata.total_requirements = 2 :=
  c6_duplicates_silently_collapsed ⟨"1.0", [["7.1", "7.1"]]⟩ ["7.1", "7.1"] "t0" (by decide)

/-- C8 counterexample: the claim says the CLI exits with code 1 on every
validation error (invalid level or unknown id).  Neither does: on an
unknown requirement id the updater reports the validation failure by
returning `false`, but `main` discards that result and the process exits
with code 0; and a level outside `[0,4]` is intercepted by argparse's
`choices=[0,1,2,3,4]` and the process exits with code 2 before `main`'s
dispatch ever runs. -/
theorem c8_validation_error_exits_zero :
    cli_update_exit_code (some sampleEscapedLedger) "9.9.9" 2 "" "" "" "t1" = 0
    ∧ (update_requirement_status "9.9.9" 2 "" "" "" "t1" sampleEscapedLedger).1 = false
    ∧ cli_update_exit_code (some sampleEscapedLedger) "7.1" 5 "" "" "" "t1" = 2 := by
  refine ⟨rfl, ?_, rfl⟩
  have := c3_invalid_input_no_mutation sampleEscapedLedger "9.9.9" 2 "" "" "" "t1"
    (Or.inr (by decide))
  rw [this]

/-- C8 amended: a level outside the argparse choices `[0,4]` exits with
code 2 before the dispatch runs, whatever the Ledger file's state; for a
level that parses, the invocation exits 1 exactly when the Ledger file is
missing, and in every other case — success or unknown-id validation error
alike — `main` ignores the updater's boolean result and the process exits
0. -/
theorem c8_exit_code_characterization (req_id : String) (level : Int)
    (implementation test_file notes now : String) (s : StatusData) :
    cli_update_exit_code none req_id level implementation test_file notes now
      = (if level = 0 ∨ level = 1 ∨ level = 2 ∨ level = 3 ∨ level = 4 then 1 else 2)
    ∧ cli_update_exit_code (some s) req_id level implementation test_file notes now
      = (if level = 0 ∨ level = 1 ∨ level = 2 ∨ level = 3 ∨ level = 4 then 0 else 2) := by
  by_cases hv : level = 0 ∨ level = 1 ∨ level = 2 ∨ level = 3 ∨ level = 4
  · simp only [cli_update_exit_code, hv, not_true_eq_false, if_neg, if_pos,
      if_true, ite_false, ite_true]
    exact ⟨rfl, rfl⟩
  · simp [cli_update_exit_code, hv]

/-- C9: the Evidence Scanner's score is exactly the double sum, over
keywords and source files, of the per-file occurrence count capped at
`scoreCap = 5` (the `if keyword in file` guard is redundant because an
absent keyword contributes `min 0 5 = 0`), and the classification ladder is
`score ≥ 20 → implemented`, `8 ≤ score < 20 → partial`, `score < 8 →
missing`. -/
theorem c9_evidence_score_and_classification (keywords files : List (List Char)) (score : Nat) :
    evidence_score keywords files
      = (keywords.map (fun kw => (files.map (fun f => min (countOcc kw f) scoreCap)).sum)).sum
    ∧ (classifyEvidence score = ImplClass.implFull ↔ scoreFullThreshold ≤ score)
    ∧ (classifyEvidence score = ImplClass.implPart
        ↔ scorePartThreshold ≤ score ∧ score < scoreFullThreshold)
    ∧ (classifyEvidence score = ImplClass.implMissing ↔ score < scorePartThreshold) := by
  refine ⟨evidence_score_eq_sum keywords files, ?_, ?_, ?_⟩ <;>
    (unfold classifyEvidence scoreFullThreshold scorePartThreshold
     split_ifs with h1 h2 <;> simp <;> omega)

/-- C10: a `set_level` call that passes validation succeeds and changes
only the targeted entry, the metadata last-updated stamp and the Statistics
block: every other key's lookup is unchanged, the key set itself is
unchanged, and when the optional `implementation`, `test_file` or `notes`
arguments are the empty string the previously stored field values are
preserved instead of being overwritten. -/
theorem c10_frame_and_empty_args_preserved (s : StatusData) (req_id : String) (level : Int)
    (implementation test_file notes now : String) (e : VerificationEntry)
    (hv : level = 0 ∨ level = 1 ∨ level = 2 ∨ level = 3 ∨ level = 4)
    (hg : dictGet (escapedKey req_id) s.entries = some e) :
    (update_requirement_status req_id level implementation test_file notes now s).1 = true
    ∧ (∀ k, k ≠ escapedKey req_id →
        dictGet k
            (update_requirement_status req_id level implementation test_file notes now s).2.entries
          = dictGet k s.entries)
    ∧ dictGet (escapedKey req_id)
        (update_requirement_status req_id level implementation test_file notes now s).2.entries
        = some
            { level := level
            , verified := decide (3 ≤ level)
            , last_checked := now
            , implementation := if implementation = "" then e.implementation else implementation
            , test_file := if test_file = "" then e.test_file else test_file
            , notes := if notes = "" then e.notes else notes }
    ∧ (update_requirement_status req_id level implementation test_file notes now s).2.metadata
        = { s.metadata with last_updated := now }
    ∧ dictKeys
        (update_requirement_status req_id level implementation test_file notes now s).2.entries
        = dictKeys s.entries := by
  rw [update_eq_of_found hv hg]
  refine ⟨rfl, ?_, ?_, rfl, ?_⟩
  · intro k hk
    exact dictGet_dictInsert_ne _ _ hk
  · rw [dictGet_dictInsert_self]
    simp only [if_ne_flip]
  · exact dictKeys_dictInsert_of_mem _ (mem_keys_of_dictGet hg)

/-- Witness for C10: updating requirement `7.1` to level 2 with all
optional arguments empty, on the two-entry escaped-key ledger. -/
theorem c10_frame_and_empty_args_preserved_witness :
    (update_requirement_status "7.1" 2 "" "" "" "t1" sampleEscapedLedger).1 = true
    ∧ (∀ k, k ≠ escapedKey "7.1" →
        dictGet k (update_requirement_status "7.1" 2 "" "" "" "t1" sampleEscapedLedger).2.entries
          = dictGet k sampleEscapedLedger.entries)
    ∧ dictGet (escapedKey "7.1")
        (update_requirement_status "7.1" 2 "" "" "" "t1" sampleEscapedLedger).2.entries
        = some
            { level := 2
            , verified := decide (3 ≤ (2 : Int))
            , last_checked := "t1"
            , implementation := if "" = "" then initialEntry.implementation else ""
            , test_file := if "" = "" then initialEntry.test_file else ""
            , notes := if "" = "" then initialEntry.notes else "" }
    ∧ (update_requirement_status "7.1" 2 "" "" "" "t1" sampleEscapedLedger).2.metadata
        = { sampleEscapedLedger.metadata with last_updated := "t1" }
    ∧ dictKeys (update_requirement_status "7.1" 2 "" "" "" "t1" sampleEscapedLedger).2.entries
        = dictKeys sampleEscapedLedger.entries :=
  c10_frame_and_empty_args_preserved sampleEscapedLedger "7.1" 2 "" "" "" "t1" initialEntry
    (by decide) (by decide)

/-- C7 counterexample: the claim says entries with sentinel `"never"` sort
after all really-timestamped entries.  On a ledger with one entry checked
at `2024-06-01T10:00:00` and one never-checked entry, the code's
descending sort of the raw `last_checked` strings puts the `"never"` row
first — `'n'` is greater than any digit — so a `"never"` row precedes a
really-timestamped row and the claimed order is violated. -/
theorem c7_never_rows_sort_first :
    ¬ neverRowsLast (sortRowsDesc (recentRows sampleRecentLedger))
    ∧ (sortRowsDesc (recentRows sampleRecentLedger)).map RecentRow.last_checked
        = ["never", "2024-06-01T10:00:00"] := by
  constructor
  · decide
  · decide

/-- C7 amended: the Recent Activity list is the input rows permuted into
descending order of the raw `last_checked` string (so, most recent first
among real ISO timestamps, which compare chronologically as strings), and
every `"never"` row sorts *before* — not after — any row whose timestamp
string is below `"never"`, digit-initial ISO timestamps included; the
section then shows the first 10 rows. -/
theorem c7_recent_sort_characterization (s : StatusData) :
    List.Pairwise (fun a b => strLe b.last_checked a.last_checked = true)
      (sortRowsDesc (recentRows s))
    ∧ List.Perm (sortRowsDesc (recentRows s)) (recentRows s)
    ∧ List.Pairwise (fun a b => b.last_checked = "never" → strLe "never" a.last_checked = true)
      (sortRowsDesc (recentRows s))
    ∧ recent_updates s = (sortRowsDesc (recentRows s)).take 10 := by
  refine ⟨sortRowsDesc_pairwise _, sortRowsDesc_perm _, ?_, rfl⟩
  exact (sortRowsDesc_pairwise _).imp (fun h hb => hb ▸ h)

/-- C5: a second `set_level` call with identical arguments succeeds again
and produces a stored status file identical to the one after the first
call once the three timestamp fields (`last_checked` of entries, metadata
`last_updated`, statistics `last_calculated`) are erased. -/
theorem c5_idempotent_modulo_timestamps (s : StatusData) (req_id : String) (level : Int)
    (implementation test_file notes t1 t2 : String)
    (h1 : (update_requirement_status req_id level implementation test_file notes t1 s).1 = true) :
    (update_requirement_status req_id level implementation test_file notes t2
        (update_requirement_status req_id level implementation test_file notes t1 s).2).1 = true
    ∧ stripTimestamps
        (update_requirement_status req_id level implementation test_file notes t2
            (update_requirement_status req_id level implementation test_file notes t1 s).2).2
      = stripTimestamps
          (update_requirement_status req_id level implementation test_file notes t1 s).2 := by
  obtain ⟨hv, e, hg⟩ := update_fst_true_elim h1
  rw [update_eq_of_found hv hg]
  have hg2 : dictGet (escapedKey req_id)
      (dictInsert (escapedKey req_id)
        { level := level
        , verified := decide (3 ≤ level)
        , last_checked := t1
        , implementation := if implementation ≠ "" then implementation else e.implementation
        , test_file := if test_file ≠ "" then test_file else e.test_file
        , notes := if notes ≠ "" then notes else e.notes } s.entries)
      = some
        { level := level
        , verified := decide (3 ≤ level)
        , last_checked := t1
        , implementation := if implementation ≠ "" then implementation else e.implementation
        , test_file := if test_file ≠ "" then test_file else e.test_file
        , notes := if notes ≠ "" then notes else e.notes } :=
    dictGet_dictInsert_self _ _ _
  rw [update_eq_of_found hv hg2]
  refine ⟨rfl, ?_⟩
  unfold stripTimestamps
  simp only [StatusData.mk.injEq]
  refine ⟨trivial, ?_, ?_⟩
  · rw [dictInsert_dictInsert, map_value_dictInsert stripEntryTime,
      map_value_dictInsert stripEntryTime]
    congr 1
    unfold stripEntryTime
    by_cases hi : implementation = "" <;> by_cases ht : test_file = "" <;>
      by_cases hn : notes = "" <;> simp [hi, ht, hn]
  · rw [dictInsert_dictInsert]
    have hacc : statAccOf (dictInsert (escapedKey req_id)
        { level := level
        , verified := decide (3 ≤ level)
        , last_checked := t2
        , implementation :=
            if implementation ≠ "" then implementation
            else if implementation ≠ "" then implementation else e.implementation
        , test_file :=
            if test_file ≠ "" then test_file
            else if test_file ≠ "" then test_file else e.test_file
        , notes := if notes ≠ "" then notes else if notes ≠ "" then notes else e.notes }
        s.entries)
        = statAccOf (dictInsert (escapedKey req_id)
            { level := level
            , verified := decide (3 ≤ level)
            , last_checked := t1
            , implementation := if implementation ≠ "" then implementation else e.implementation
            , test_file := if test_file ≠ "" then test_file else e.test_file
            , notes := if notes ≠ "" then notes else e.notes } s.entries) :=
      statAccOf_congr (forall₂_level_dictInsert s.entries rfl)
    simp only [recalculate_statistics, statAvg, hacc, Statistics.mk.injEq]

/-- Witness for C5: two identical level-2 updates of requirement `7.1` on
the escaped-key ledger at timestamps `t1` and `t2`. -/
theorem c5_idempotent_modulo_timestamps_witness :
    (update_requirement_status "7.1" 2 "impl.rs" "" "note" "t2"
        (update_requirement_status "7.1" 2 "impl.rs" "" "note" "t1" sampleEscapedLedger).2).1
      = true
    ∧ stripTimestamps
        (update_requirement_status "7.1" 2 "impl.rs" "" "note" "t2"
            (update_requirement_status "7.1" 2 "impl.rs" "" "note" "t1"
              sampleEscapedLedger).2).2
      = stripTimestamps
          (update_requirement_status "7.1" 2 "impl.rs" "" "note" "t1" sampleEscapedLedger).2 :=
  c5_idempotent_modulo_timestamps sampleEscapedLedger "7.1" 2 "impl.rs" "" "note" "t1" "t2"
    (by decide)

/-- C2: after a successful `set_level` on a well-formed ledger (all levels
in `[0,4]`, all `verified` flags derived), the stored Statistics block is
exactly derivable from the entry set: the five per-level counts are the
per-level entry counts and partition all entries (their sum is the entry
count, hence `metadata.total_requirements` whenever it was accurate
before); the stored average is within `1/1000` of `Σ(level·count)/total`;
the stored compliance percentage equals that exact average divided by 4,
times 100, rounded to 2 decimal places; and every entry — touched or not —
satisfies `verified = (level ≥ 3)`. -/
theorem c2_statistics_derivable (s s' : StatusData) (req_id : String) (level : Int)
    (implementation test_file notes now : String)
    (hwf : allLevelsValid s.entries) (hvc : verifiedConsistent s.entries)
    (hok : update_requirement_status req_id level implementation test_file notes now s
            = (true, s')) :
    s'.statistics.level_0_count = countLevel 0 s'.entries
    ∧ s'.statistics.level_1_count = countLevel 1 s'.entries
    ∧ s'.statistics.level_2_count = countLevel 2 s'.entries
    ∧ s'.statistics.level_3_count = countLevel 3 s'.entries
    ∧ s'.statistics.level_4_count = countLevel 4 s'.entries
    ∧ s'.statistics.level_0_count + s'.statistics.level_1_count + s'.statistics.level_2_count
        + s'.statistics.level_3_count + s'.statistics.level_4_count = s'.entries.length
    ∧ (s.metadata.total_requirements = s.entries.length →
        s'.statistics.level_0_count + s'.statistics.level_1_count + s'.statistics.level_2_count
            + s'.statistics.level_3_count + s'.statistics.level_4_count
          = s'.metadata.total_requirements)
    ∧ |s'.statistics.average_level - derivedAverage s'.entries| ≤ 1 / 1000
    ∧ s'.statistics.compliance_percentage = roundQ 2 (derivedAverage s'.entries / 4 * 100)
    ∧ verifiedConsistent s'.entries := by
  have h1 : (update_requirement_status req_id level implementation test_file notes now s).1
      = true := by rw [hok]
  obtain ⟨hv, e, hg⟩ := update_fst_true_elim h1
  rw [update_eq_of_found hv hg] at hok
  have hs' := (Prod.mk.injEq _ _ _ _).mp hok.symm
  rw [hs'.2]
  have hwf' : allLevelsValid (dictInsert (escapedKey req_id)
      { level := level
      , verified := decide (3 ≤ level)
      , last_checked := now
      , implementation := if implementation ≠ "" then implementation else e.implementation
      , test_file := if test_file ≠ "" then test_file else e.test_file
      , notes := if notes ≠ "" then notes else e.notes } s.entries) := by
    intro p hp
    rcases mem_dictInsert hp with rfl | hp
    · show 0 ≤ level ∧ level ≤ 4
      omega
    · exact hwf p hp
  have hvc' : verifiedConsistent (dictInsert (escapedKey req_id)
      { level := level
      , verified := decide (3 ≤ level)
      , last_checked := now
      , implementation := if implementation ≠ "" then implementation else e.implementation
      , test_file := if test_file ≠ "" then test_file else e.test_file
      , notes := if notes ≠ "" then notes else e.notes } s.entries) := by
    intro p hp
    rcases mem_dictInsert hp with rfl | hp
    · rfl
    · exact hvc p hp
  have hne : dictInsert (escapedKey req_id)
      { level := level
      , verified := decide (3 ≤ level)
      , last_checked := now
      , implementation := if implementation ≠ "" then implementation else e.implementation
      , test_file := if test_file ≠ "" then test_file else e.test_file
      , notes := if notes ≠ "" then notes else e.notes } s.entries ≠ [] :=
    dictInsert_ne_nil _ _ _
  have hlen : (dictInsert (escapedKey req_id)
      { level := level
      , verified := decide (3 ≤ level)
      , last_checked := now
      , implementation := if implementation ≠ "" then implementation else e.implementation
      , test_file := if test_file ≠ "" then test_file else e.test_file
      , notes := if notes ≠ "" then notes else e.notes } s.entries).length
      = s.entries.length :=
    length_dictInsert_of_mem _ (mem_keys_of_dictGet hg)
  have havg := statAvg_eq_derivedAverage hwf' hne
  refine ⟨?_, ?_, ?_, ?_, ?_, ?_, ?_, ?_, ?_, hvc'⟩
  · show (statAccOf _).c0 = _
    rw [statAccOf_eq hwf']
  · show (statAccOf _).c1 = _
    rw [statAccOf_eq hwf']
  · show (statAccOf _).c2 = _
    rw [statAccOf_eq hwf']
  · show (statAccOf _).c3 = _
    rw [statAccOf_eq hwf']
  · show (statAccOf _).c4 = _
    rw [statAccOf_eq hwf']
  · show (statAccOf _).c0 + (statAccOf _).c1 + (statAccOf _).c2 + (statAccOf _).c3
        + (statAccOf _).c4 = _
    rw [statAccOf_eq hwf']
    exact countLevel_sum_eq_length hwf'
  · intro hmeta
    show (statAccOf _).c0 + (statAccOf _).c1 + (statAccOf _).c2 + (statAccOf _).c3
        + (statAccOf _).c4 = s.metadata.total_requirements
    rw [statAccOf_eq hwf']
    rw [countLevel_sum_eq_length hwf', hlen, hmeta]
  · show |roundQ 3 (statAvg _) - derivedAverage _| ≤ 1 / 1000
    rw [havg]
    calc |roundQ 3 (derivedAverage _) - derivedAverage _| ≤ 1 / (2 * 10 ^ 3) :=
          abs_roundQ_sub_le 3 _
      _ ≤ 1 / 1000 := by norm_num
  · show roundQ 2 (statAvg _ / 4 * 100) = _
    rw [havg]

/-- Witness for C2: a successful level-2 update of requirement `7.1` on
the well-formed two-entry escaped-key ledger. -/
theorem c2_statistics_derivable_witness :
    ((update_requirement_status "7.1" 2 "" "" "" "t1" sampleEscapedLedger).2.statistics.level_0_count
        = countLevel 0 (update_requirement_status "7.1" 2 "" "" "" "t1" sampleEscapedLedger).2.entries
      ∧ (update_requirement_status "7.1" 2 "" "" "" "t1"
            sampleEscapedLedger).2.statistics.level_1_count
        = countLevel 1 (update_requirement_status "7.1" 2 "" "" "" "t1" sampleEscapedLedger).2.entries
      ∧ (update_requirement_status "7.1" 2 "" "" "" "t1"
            sampleEscapedLedger).2.statistics.level_2_count
        = countLevel 2 (update_requirement_status "7.1" 2 "" "" "" "t1" sampleEscapedLedger).2.entries
      ∧ (update_requirement_status "7.1" 2 "" "" "" "t1"
            sampleEscapedLedger).2.statistics.level_3_count
        = countLevel 3 (update_requirement_status "7.1" 2 "" "" "" "t1" sampleEscapedLedger).2.entries
      ∧ (update_requirement_status "7.1" 2 "" "" "" "t1"
            sampleEscapedLedger).2.statistics.level_4_count
        = countLevel 4 (update_requirement_status "7.1" 2 "" "" "" "t1" sampleEscapedLedger).2.entries
      ∧ (update_requirement_status "7.1" 2 "" "" "" "t1"
              sampleEscapedLedger).2.statistics.level_0_count
            + (update_requirement_status "7.1" 2 "" "" "" "t1"
                sampleEscapedLedger).2.statistics.level_1_count
            + (update_requirement_status "7.1" 2 "" "" "" "t1"
                sampleEscapedLedger).2.statistics.level_2_count
            + (update_requirement_status "7.1" 2 "" "" "" "t1"
                sampleEscapedLedger).2.statistics.level_3_count
            + (update_requirement_status "7.1" 2 "" "" "" "t1"
                sampleEscapedLedger).2.statistics.level_4_count
          = (update_requirement_status "7.1" 2 "" "" "" "t1" sampleEscapedLedger).2.entries.length
      ∧ (sampleEscapedLedger.metadata.total_requirements = sampleEscapedLedger.entries.length →
          (update_requirement_status "7.1" 2 "" "" "" "t1"
                sampleEscapedLedger).2.statistics.level_0_count
              + (update_requirement_status "7.1" 2 "" "" "" "t1"
                  sampleEscapedLedger).2.statistics.level_1_count
              + (update_requirement_status "7.1" 2 "" "" "" "t1"
                  sampleEscapedLedger).2.statistics.level_2_count
              + (update_requirement_status "7.1" 2 "" "" "" "t1"
                  sampleEscapedLedger).2.statistics.level_3_count
              + (update_requirement_status "7.1" 2 "" "" "" "t1"
                  sampleEscapedLedger).2.statistics.level_4_count
            = (update_requirement_status "7.1" 2 "" "" "" "t1"
                sampleEscapedLedger).2.metadata.total_requirements)
      ∧ |(update_requirement_status "7.1" 2 "" "" "" "t1"
              sampleEscapedLedger).2.statistics.average_level
            - derivedAverage (update_requirement_status "7.1" 2 "" "" "" "t1"
                sampleEscapedLedger).2.entries| ≤ 1 / 1000
      ∧ (update_requirement_status "7.1" 2 "" "" "" "t1"
            sampleEscapedLedger).2.statistics.compliance_percentage
        = roundQ 2 (derivedAverage (update_requirement_status "7.1" 2 "" "" "" "t1"
              sampleEscapedLedger).2.entries / 4 * 100)
      ∧ verifiedConsistent
          (update_requirement_status "7.1" 2 "" "" "" "t1" sampleEscapedLedger).2.entries) :=
  c2_statistics_derivable sampleEscapedLedger
    (update_requirement_status "7.1" 2 "" "" "" "t1" sampleEscapedLedger).2
    "7.1" 2 "" "" "" "t1" (by decide) (by decide) rfl

end VerifTrack
